import Mathlib

/-!
Verification of `gen-changelog.py` (libabigail): a shallow embedding of the
script's text-processing pipeline.  Lines of text are modelled as `List Char`;
Python's `str.split(sep)`, `str.join`, `str.strip`, `str.startswith` and list
indexing are modelled by executable Lean functions with the same semantics.
A Python `IndexError` is modelled by `Option`/`Except` failure.
-/

namespace GenChangelog

/-- A line of text, as a list of characters. -/
abbrev Line := List Char

/-- Convert a Lean string literal to a `Line`. -/
def toLine (s : String) : Line := s.data

/-- Python `s.split(sep)` for a single-character separator: splits at every
occurrence of `sep`, keeping empty fields; `''.split(sep) = ['']`. -/
def pySplit (sep : Char) : Line → List Line
  | [] => [[]]
  | c :: cs =>
    if c = sep then [] :: pySplit sep cs
    else
      match pySplit sep cs with
      | [] => [[c]]
      | f :: rest => (c :: f) :: rest

/-- Python `sep.join(fields)` for a single-character separator. -/
def pyJoin (sep : Char) : List Line → Line
  | [] => []
  | [f] => f
  | f :: g :: rest => f ++ sep :: pyJoin sep (g :: rest)

/-- Python `s.strip()`: remove whitespace from both ends. -/
def pyStrip (s : Line) : Line :=
  ((s.dropWhile Char.isWhitespace).reverse.dropWhile Char.isWhitespace).reverse

/-- The literal address rewritten away by the formatter (line 61 of the script). -/
def tpmAddr : Line := toLine "<tpm@src.gnome.org>"

/-- The replacement address (line 62 of the script). -/
def timAddr : Line := toLine "<tim@centricular.net>"

/-- Lines filtered out of a commit buffer (line 35 of the script). -/
def gitSvnId : Line := toLine "git-svn-id"

/-- Lines skipped in the body loop (line 78 of the script). -/
def signedOffBy : Line := toLine "Signed-off-by:"

/-- `lines = [x.strip() for x in lines if x.strip() and not
x.startswith('git-svn-id')]` (line 35 of the script). -/
def cleanBuf (lines : List Line) : List Line :=
  (lines.filter
    (fun x => !(pyStrip x).isEmpty && !List.isPrefixOf gitSvnId x)).map pyStrip

/-- `files = [x.strip() for x in files if x.strip()]` (line 36 of the script). -/
def cleanFiles (files : List Line) : List Line :=
  (files.filter (fun x => !(pyStrip x).isEmpty)).map pyStrip

/-- The loop at lines 46-49 of the script: the index of the first line after
the first whose text starts with `*`, or `0` if there is none. -/
def firstBodyIdx (lines : List Line) : Nat :=
  match (lines.drop 1).findIdx? (fun l => List.isPrefixOf ['*'] l) with
  | some j => j + 1
  | none => 0

/-- Lines 52-65 of the script: split the top line on single spaces, drop the
UTC-offset field when the third field starts with `+` or `-`, drop the bare
time field when the (new) second field has `:` at positions 2 and 5, rewrite
the trailing field when it is the tpm address, rejoin and strip.  `none`
models a Python `IndexError`. -/
def normalizeTop (top_line : Line) : Option Line := do
  let fields := pySplit ' ' top_line
  let f2 ← fields[2]?
  let fields1 :=
    if List.isPrefixOf ['+'] f2 || List.isPrefixOf ['-'] f2 then
      fields.eraseIdx 2
    else fields
  let f1 ← fields1[1]?
  let c2 ← f1[2]?
  let del1 ←
    if c2 = ':' then do
      let c5 ← f1[5]?
      pure (c5 == ':')
    else pure false
  let fields2 := if del1 then fields1.eraseIdx 1 else fields1
  let lastf ← fields2.getLast?
  let fields3 :=
    if lastf = tpmAddr then fields2.dropLast ++ [timAddr] else fields2
  pure (pyStrip (pyJoin ' ' fields3))

/-- `'\t* %s:' % f.strip()` (line 73 of the script). -/
def fmtFileLine (f : Line) : Line :=
  '\t' :: '*' :: ' ' :: (pyStrip f ++ [':'])

/-- The four print groups of `process_commit` (lines 27-81 of the script):
header (top line and blank line), optional subject line, optional synthetic
file-bullet section, optional body section.  `none` models an uncaught
`IndexError`; every indexing that can fail in the script happens before its
first `print`, so a `none` result corresponds to a run that printed nothing. -/
def stanzaSections (lines0 files0 : List Line) :
    Option (List Line × List Line × List Line × List Line) := do
  let lines := cleanBuf lines0
  let files := cleanFiles files0
  let fileincommit := lines.any (fun l => List.isPrefixOf ['*', ' '] l)
  let top_line ← lines[0]?
  let l1 ← lines[1]?
  let subject_line_index := if List.isPrefixOf ['*'] l1 then 0 else 1
  let first_cl_body_line_index := firstBodyIdx lines
  let top ← normalizeTop top_line
  let headerPart := [top, ([] : Line)]
  let subjectPart :=
    if subject_line_index > 0 then ['\t' :: pyStrip l1] else []
  let filesPart :=
    if fileincommit then [] else files.map fmtFileLine ++ [([] : Line)]
  let bodyPart :=
    if first_cl_body_line_index > 0 then
      ((lines.drop first_cl_body_line_index).filter
          (fun l => !List.isPrefixOf signedOffBy l)).map
        (fun l => '\t' :: pyStrip l) ++ [([] : Line)]
    else []
  pure (headerPart, subjectPart, filesPart, bodyPart)

/-- `process_commit` as the list of printed lines (a `print()` with no
argument is the empty line); `none` models an uncaught `IndexError`, which in
the script always fires before the first `print`. -/
def process_commit (lines files : List Line) : Option (List Line) :=
  (stanzaSections lines files).map (fun s => s.1 ++ s.2.1 ++ s.2.2.1 ++ s.2.2.2)

/-- The start sentinel of the log format template (line 84 of the script). -/
def startSentinel : Line := toLine "--START-COMMIT--"

/-- The end sentinel of the log format template (line 84 of the script). -/
def endSentinel : Line := toLine "--END-COMMIT--"

/-- Python `int(s)` restricted to the decimal digit strings the script feeds
it (regex groups `[0-9]+`); anything else models a `ValueError`. -/
def pyInt (s : Line) : Option Nat :=
  if s ≠ [] ∧ s.all Char.isDigit then
    some (s.foldl (fun n c => 10 * n + (c.toNat - Char.toNat '0')) 0)
  else none

/-- The text of `"=== release %d.%d.%d ==="` for the given integers. -/
def markerLine (x y z : Nat) : Line :=
  toLine "=== release " ++ toLine (Nat.repr x) ++ '.' :: toLine (Nat.repr y) ++
    '.' :: toLine (Nat.repr z) ++ toLine " ==="

/-- Lines 105-109 of the script: look the hash up in `release_refs`; on a hit
with `int()`-convertible components print the release marker (the `print` of
a string ending in `\n` yields two lines); a `KeyError` or `ValueError` is
swallowed by the bare `except`. -/
def relMarker (rel : Line → Option (Line × Line × Line)) (hash : Line) :
    List Line :=
  match rel hash with
  | none => []
  | some (a, b, c) =>
    match pyInt a, pyInt b, pyInt c with
    | some x, some y, some z => [markerLine x y z, []]
    | _, _, _ => []

/-- A call `process_commit(buf, files)`: `.ok` is the printed stanza, `.error`
carries the lines printed before an uncaught `IndexError` (always none, since
every fallible indexing in `process_commit` precedes its first `print`). -/
def pcFlush (buf files : List Line) : Except (List Line) (List Line) :=
  match process_commit buf files with
  | some out => Except.ok out
  | none => Except.error []

/-- Prepend already-printed lines to the result of the rest of a run; an
exception downstream keeps what was already printed. -/
def exAppend (pre : List Line) :
    Except (List Line) (List Line) → Except (List Line) (List Line)
  | Except.ok l => Except.ok (pre ++ l)
  | Except.error l => Except.error (pre ++ l)

/-- The reading loop of `output_commits` (lines 97-120 of the script), over
the subordinate process's stdout lines, with state `buf`/`files`/`filemode`.
On a start sentinel: flush a non-empty `buf`, print the release marker for the
hash following the sentinel when resolved, reset the state.  On an end
sentinel: enter file-collection mode.  Otherwise append the line to `files`
or `buf` according to the mode.  At end of stream: flush a non-empty `buf`. -/
def runLoop (rel : Line → Option (Line × Line × Line))
    (buf files : List Line) (filemode : Bool) :
    List Line → Except (List Line) (List Line)
  | [] => if buf = [] then Except.ok [] else pcFlush buf files
  | lin :: rest =>
    if List.isPrefixOf startSentinel lin then
      match if buf = [] then Except.ok [] else pcFlush buf files with
      | Except.error out => Except.error out
      | Except.ok out1 =>
        exAppend (out1 ++ relMarker rel (pyStrip (lin.drop 16)))
          (runLoop rel [] [] false rest)
    else if List.isPrefixOf endSentinel lin then
      runLoop rel buf files true rest
    else if filemode then
      runLoop rel buf (files ++ [lin]) filemode rest
    else
      runLoop rel (buf ++ [lin]) files filemode rest

/-- `output_commits`, given the release mapping and the log command's stdout
lines: the sequence of printed lines (`.error` = lines printed before an
uncaught exception). -/
def output_commits (rel : Line → Option (Line × Line × Line))
    (stdout : List Line) : Except (List Line) (List Line) :=
  runLoop rel [] [] false stdout

/-- The character class `[a-z0-9]` of the tag regexes. -/
def isTagHashChar (c : Char) : Bool :=
  ('a' ≤ c && c ≤ 'z') || ('0' ≤ c && c ≤ '9')

/-- The separator class `[-_.]` of the release-tag regex. -/
def sepOk (c : Char) : Bool := c = '-' || c = '_' || c = '.'

/-- Maximal leading run of `[0-9]` and the remainder (a greedy `[0-9]+`). -/
def takeDigits (s : Line) : Line × Line :=
  (s.takeWhile Char.isDigit, s.dropWhile Char.isDigit)

/-- The literal between the hash group and the version groups of the
release-tag regex (line 124 of the script). -/
def relTagMid : Line := toLine " refs/tags/GNET-"

/-- The `([0-9]+)[-_.]([0-9]+)[-_.]([0-9]+)` tail of the release-tag regex:
three greedy digit groups separated by `[-_.]`, trailing text ignored. -/
def parseVer (s : Line) : Option (Line × Line × Line) :=
  let p1 := takeDigits s
  if p1.1.isEmpty then none else
  match p1.2 with
  | [] => none
  | c1 :: r2 =>
    if sepOk c1 then
      let p2 := takeDigits r2
      if p2.1.isEmpty then none else
      match p2.2 with
      | [] => none
      | c2 :: r4 =>
        if sepOk c2 then
          let p3 := takeDigits r4
          if p3.1.isEmpty then none else some (p1.1, p2.1, p3.1)
        else none
    else none

/-- `reltagre.search(lin)` (line 124 of the script): anchored at the start,
exactly 40 chars of `[a-z0-9]`, the literal `" refs/tags/GNET-"`, then the
three version groups; `none` on no match. -/
def relTagMatch (lin : Line) : Option (Line × (Line × Line × Line)) :=
  let hash := lin.take 40
  if hash.length = 40 && hash.all isTagHashChar &&
      List.isPrefixOf relTagMid (lin.drop 40) then
    (parseVer ((lin.drop 40).drop relTagMid.length)).map (fun t => (hash, t))
  else none

/-- The body of the `get_rel_tags` loop (lines 130-134 of the script): on a
regex match store the version triple under the hash (overwriting), else leave
the dict unchanged. -/
def relStep (acc : Line → Option (Line × Line × Line)) (lin : Line) :
    Line → Option (Line × Line × Line) :=
  match relTagMatch lin with
  | some (sha, trip) => fun k => if k = sha then some trip else acc k
  | none => acc

/-- `get_rel_tags` (lines 122-134 of the script) over the given `show-ref`
output lines: the `release_refs` dict as a lookup function; a later matching
line overwrites an earlier one with the same hash. -/
def get_rel_tags (ls : List Line) : Line → Option (Line × Line × Line) :=
  ls.foldl relStep (fun _ => none)

/-- The literal after the hash group of the start-tag regex (line 137). -/
def startTagPat : Line := toLine " refs/tags/CHANGELOG_START"

/-- `starttagre.search(lin)` (line 137 of the script): anchored at the start,
exactly 40 chars of `[a-z0-9]`, then the literal; returns the hash group. -/
def startTagMatch (lin : Line) : Option Line :=
  let hash := lin.take 40
  if hash.length = 40 && hash.all isTagHashChar &&
      List.isPrefixOf startTagPat (lin.drop 40) then some hash else none

/-- `find_start_tag` (lines 136-146 of the script) over the given `show-ref`
output lines: the hash group of the first matching line, else `none`. -/
def find_start_tag (ls : List Line) : Option Line :=
  ls.findSome? startTagMatch

/-- The fixed head of the log command (lines 84-85 of the script). -/
def baseLogCmd : List Line :=
  [toLine "git", toLine "log",
   toLine
     "--pretty=format:--START-COMMIT--%H%n%ai  %an <%ae>%n%n%s%n%b%n--END-COMMIT--",
   toLine "--date=short", toLine "--name-only"]

/-- Lines 87-92 of the script: the argument list of the log command, given
the `show-ref` output lines (for the start-tag lookup) and `sys.argv[1:]`. -/
def build_cmd (tagLines argv : List Line) : List Line :=
  baseLogCmd ++
    (match find_start_tag tagLines with
     | none => argv
     | some t => [t ++ toLine "..HEAD"])

/-! ### Helper lemmas about the Python string primitives -/

theorem pySplit_ne_nil (sep : Char) (s : Line) : pySplit sep s ≠ [] := by
  induction s with
  | nil => simp [pySplit]
  | cons c cs ih =>
    by_cases h : c = sep
    · simp [pySplit, h]
    · simp only [pySplit, if_neg h]
      cases hh : pySplit sep cs with
      | nil => simp
      | cons f rest => simp

theorem pySplit_cons_sep (sep : Char) (cs : Line) :
    pySplit sep (sep :: cs) = [] :: pySplit sep cs := by
  simp [pySplit]

theorem pySplit_cons_ne {sep c : Char} (cs : Line) (h : c ≠ sep)
    {f : Line} {rest : List Line} (hh : pySplit sep cs = f :: rest) :
    pySplit sep (c :: cs) = (c :: f) :: rest := by
  simp only [pySplit, if_neg h, hh]

theorem pySplit_of_not_mem {sep : Char} {s : Line} (h : sep ∉ s) :
    pySplit sep s = [s] := by
  induction s with
  | nil => rfl
  | cons c cs ih =>
    have hc : c ≠ sep := fun hh => h (hh ▸ List.mem_cons_self c cs)
    have hcs : sep ∉ cs := fun hh => h (List.mem_cons_of_mem _ hh)
    rw [pySplit_cons_ne cs hc (ih hcs)]

theorem pySplit_append {sep : Char} (a b : Line) (h : sep ∉ a) :
    pySplit sep (a ++ sep :: b) = a :: pySplit sep b := by
  induction a with
  | nil => simpa using pySplit_cons_sep sep b
  | cons c a' ih =>
    have hc : c ≠ sep := fun hh => h (hh ▸ List.mem_cons_self c a')
    have ha' : sep ∉ a' := fun hh => h (List.mem_cons_of_mem _ hh)
    have := ih ha'
    calc pySplit sep ((c :: a') ++ sep :: b)
        = (c :: a') :: pySplit sep b := by
          exact pySplit_cons_ne _ hc this

theorem pyJoin_pySplit (sep : Char) (s : Line) :
    pyJoin sep (pySplit sep s) = s := by
  induction s with
  | nil => rfl
  | cons c cs ih =>
    cases hh : pySplit sep cs with
    | nil => exact absurd hh (pySplit_ne_nil sep cs)
    | cons f rest =>
      by_cases h : c = sep
      · subst h
        rw [pySplit_cons_sep, hh]
        rw [hh] at ih
        simpa [pyJoin] using ih
      · rw [pySplit_cons_ne cs h hh]
        rw [hh] at ih
        cases rest with
        | nil => simpa [pyJoin] using ih
        | cons g r => simpa [pyJoin] using ih

theorem two_le_length_pySplit {sep : Char} {s : Line} (h : sep ∈ s) :
    2 ≤ (pySplit sep s).length := by
  induction s with
  | nil => cases h
  | cons c cs ih =>
    by_cases hc : c = sep
    · rw [hc, pySplit_cons_sep]
      cases hh : pySplit sep cs with
      | nil => exact absurd hh (pySplit_ne_nil sep cs)
      | cons f rest => simp
    · have hcs : sep ∈ cs := by
        cases h with
        | head => exact absurd rfl hc
        | tail _ hmem => exact hmem
      cases hh : pySplit sep cs with
      | nil => exact absurd hh (pySplit_ne_nil sep cs)
      | cons f rest =>
        rw [pySplit_cons_ne cs hc hh]
        have := ih hcs
        rw [hh] at this
        simpa using this

theorem pySplit_getLast (a : Line) {sep : Char} {b : Line} (h : sep ∉ b) :
    (pySplit sep (a ++ sep :: b)).getLast? = some b := by
  induction a with
  | nil =>
    rw [List.nil_append, pySplit_cons_sep, pySplit_of_not_mem h]
    rfl
  | cons c a' ih =>
    by_cases hc : c = sep
    · rw [hc, List.cons_append, pySplit_cons_sep]
      cases hh : pySplit sep (a' ++ sep :: b) with
      | nil => exact absurd hh (pySplit_ne_nil _ _)
      | cons f rest =>
        rw [hh] at ih
        simpa using ih
    · cases hh : pySplit sep (a' ++ sep :: b) with
      | nil => exact absurd hh (pySplit_ne_nil _ _)
      | cons f rest =>
        rw [List.cons_append, pySplit_cons_ne _ hc hh]
        have hlen : 2 ≤ (pySplit sep (a' ++ sep :: b)).length :=
          two_le_length_pySplit (by simp)
        rw [hh] at hlen
        cases rest with
        | nil => simp at hlen
        | cons g r =>
          rw [List.getLast?_cons_cons]
          rw [hh] at ih
          rw [List.getLast?_cons_cons] at ih
          exact ih

theorem pyJoin_dropLast_pySplit (a : Line) {sep : Char} {b : Line} (x : Line)
    (h : sep ∉ b) :
    pyJoin sep ((pySplit sep (a ++ sep :: b)).dropLast ++ [x]) =
      a ++ sep :: x := by
  induction a with
  | nil =>
    rw [List.nil_append, pySplit_cons_sep, pySplit_of_not_mem h]
    rfl
  | cons c a' ih =>
    by_cases hc : c = sep
    · rw [hc, List.cons_append, pySplit_cons_sep]
      cases hh : pySplit sep (a' ++ sep :: b) with
      | nil => exact absurd hh (pySplit_ne_nil _ _)
      | cons f rest =>
        rw [hh] at ih
        rw [List.dropLast_cons₂, List.cons_append]
        cases hd : (f :: rest).dropLast ++ [x] with
        | nil => simp at hd
        | cons u us =>
          rw [hd] at ih
          simp only [pyJoin, List.nil_append, List.cons_append]
          rw [ih]
    · cases hh : pySplit sep (a' ++ sep :: b) with
      | nil => exact absurd hh (pySplit_ne_nil _ _)
      | cons f rest =>
        rw [List.cons_append, pySplit_cons_ne _ hc hh]
        have hlen : 2 ≤ (pySplit sep (a' ++ sep :: b)).length :=
          two_le_length_pySplit (by simp)
        rw [hh] at hlen
        cases rest with
        | nil => simp at hlen
        | cons g r =>
          rw [hh] at ih
          rw [List.dropLast_cons₂] at ih ⊢
          rw [List.cons_append] at ih ⊢
          cases hd : (g :: r).dropLast ++ [x] with
          | nil => simp at hd
          | cons u us =>
            rw [hd] at ih
            simp only [pyJoin, List.cons_append] at ih ⊢
            rw [ih]

theorem pyJoin_cons_cons (sep : Char) (f g : Line) (rest : List Line) :
    pyJoin sep (f :: g :: rest) = f ++ sep :: pyJoin sep (g :: rest) := rfl

theorem dropWhile_eq_self_of_head {p : Char → Bool} {s : Line}
    (h : ∀ c, s.head? = some c → p c = false) : s.dropWhile p = s := by
  cases s with
  | nil => rfl
  | cons c cs =>
    have : p c = false := h c rfl
    simp [List.dropWhile_cons, this]

theorem pyStrip_eq_self {s : Line}
    (h1 : ∀ c, s.head? = some c → c.isWhitespace = false)
    (h2 : ∀ c, s.getLast? = some c → c.isWhitespace = false) :
    pyStrip s = s := by
  unfold pyStrip
  rw [dropWhile_eq_self_of_head h1]
  rw [dropWhile_eq_self_of_head (fun c hc => h2 c (by simpa using hc))]
  exact List.reverse_reverse s

theorem getLast?_append_some {α : Type _} {l l' : List α} {e : α}
    (h : l'.getLast? = some e) : (l ++ l').getLast? = some e := by
  rw [List.getLast?_append, h]
  rfl

theorem getLast?_cons_some {α : Type _} {l' : List α} (c : α) {e : α}
    (h : l'.getLast? = some e) : (c :: l').getLast? = some e := by
  have : c :: l' = [c] ++ l' := rfl
  rw [this]
  exact getLast?_append_some h

theorem not_mem_of_all_not_ws {s : Line}
    (h : ∀ c ∈ s, c.isWhitespace = false) : ' ' ∉ s := fun hmem => by
  have := h ' ' hmem
  simp at this

/-! ### Claims -/

/-- C1: on the commit block
`["2008-05-13 07:10:28 +0000  Alice <a@example.com>", "Fix leak", "",
"Signed-off-by: Alice <a@example.com>"]` with file buffer `["src/foo.c"]`,
the formatter prints exactly the header line `2008-05-13  Alice
<a@example.com>`, a blank line, a tab-indented `Fix leak`, a tab-indented
`* src/foo.c:` and a trailing blank line, with no body section. -/
theorem claim_C1 :
    process_commit
      [toLine "2008-05-13 07:10:28 +0000  Alice <a@example.com>",
       toLine "Fix leak", toLine "",
       toLine "Signed-off-by: Alice <a@example.com>"]
      [toLine "src/foo.c"]
    = some [toLine "2008-05-13  Alice <a@example.com>", toLine "",
            toLine "\tFix leak", toLine "\t* src/foo.c:", toLine ""] := by
  decide

/-- C2: for every header line of the form
`YYYY-MM-DD HH:MM:SS +0000  Name <email>` — a space-free nonempty date of
non-whitespace characters, a space-free time field with `:` at positions 2
and 5, a space-free offset field starting with `+` or `-`, two spaces, then
the name and a space-free nonempty non-whitespace trailing email field — the
normalized header is `YYYY-MM-DD  Name <email>`, with the trailing field
rewritten to `<tim@centricular.net>` when it is exactly
`<tpm@src.gnome.org>`. -/
theorem claim_C2 (date time off name email : Line)
    (hdate : date ≠ [] ∧ ∀ c ∈ date, c.isWhitespace = false)
    (htime : ' ' ∉ time ∧ time[2]? = some ':' ∧ time[5]? = some ':')
    (hoff : ' ' ∉ off ∧
      (List.isPrefixOf ['+'] off = true ∨ List.isPrefixOf ['-'] off = true))
    (hemail : email ≠ [] ∧ ∀ c ∈ email, c.isWhitespace = false) :
    normalizeTop (date ++ ' ' :: (time ++ ' ' :: (off ++ ' ' :: ' ' ::
        (name ++ ' ' :: email)))) =
      some (date ++ ' ' :: ' ' :: (name ++ ' ' ::
        (if email = tpmAddr then timAddr else email))) := by
  obtain ⟨hdne, hdws⟩ := hdate
  obtain ⟨hts, ht2, ht5⟩ := htime
  obtain ⟨hos, hopm⟩ := hoff
  obtain ⟨hene, hews⟩ := hemail
  have hds : ' ' ∉ date := not_mem_of_all_not_ws hdws
  have hes : ' ' ∉ email := not_mem_of_all_not_ws hews
  set R := pySplit ' ' (name ++ ' ' :: email) with hRdef
  have hfields : pySplit ' ' (date ++ ' ' :: (time ++ ' ' :: (off ++ ' ' ::
      ' ' :: (name ++ ' ' :: email)))) = date :: time :: off :: [] :: R := by
    rw [pySplit_append date _ hds, pySplit_append time _ hts,
      pySplit_append off _ hos, pySplit_cons_sep]
  have hRlast : R.getLast? = some email := pySplit_getLast name hes
  have hlast : (date :: time :: off :: [] :: R).getLast? = some email := by
    have : date :: time :: off :: [] :: R = [date, time, off, []] ++ R := rfl
    rw [this]
    exact getLast?_append_some hRlast
  have hlast2 : (date :: [] :: R).getLast? = some email := by
    have : date :: [] :: R = [date, []] ++ R := rfl
    rw [this]
    exact getLast?_append_some hRlast
  have hjoin : pyJoin ' ' (date :: [] :: R) =
      date ++ ' ' :: ' ' :: (name ++ ' ' :: email) := by
    cases hR : R with
    | nil => exact absurd hR (pySplit_ne_nil _ _)
    | cons r R' =>
      rw [pyJoin_cons_cons, pyJoin_cons_cons, List.nil_append, ← hR, hRdef,
        pyJoin_pySplit]
  have hjoin2 : pyJoin ' ' ((date :: [] :: R).dropLast ++ [timAddr]) =
      date ++ ' ' :: ' ' :: (name ++ ' ' :: timAddr) := by
    cases hR : R with
    | nil => exact absurd hR (pySplit_ne_nil _ _)
    | cons r R' =>
      rw [List.dropLast_cons₂, List.dropLast_cons₂, List.cons_append,
        List.cons_append]
      cases hX : (r :: R').dropLast ++ [timAddr] with
      | nil => simp at hX
      | cons u us =>
        rw [pyJoin_cons_cons, pyJoin_cons_cons, List.nil_append, ← hX, ← hR]
        rw [hRdef] at hR ⊢
        rw [pyJoin_dropLast_pySplit name timAddr hes]
  have hstrip : ∀ E : Line, E ≠ [] → (∀ c ∈ E, c.isWhitespace = false) →
      pyStrip (date ++ ' ' :: ' ' :: (name ++ ' ' :: E)) =
        date ++ ' ' :: ' ' :: (name ++ ' ' :: E) := by
    intro E hEne hEws
    apply pyStrip_eq_self
    · intro c hc
      cases hd : date with
      | nil => exact absurd hd hdne
      | cons d0 d' =>
        rw [hd, List.cons_append] at hc
        simp only [List.head?_cons, Option.some.injEq] at hc
        subst hc
        exact hdws d0 (hd ▸ List.mem_cons_self d0 d')
    · intro c hc
      have hEl : E.getLast? = some (E.getLast hEne) :=
        List.getLast?_eq_getLast E hEne
      have hEm : E.getLast hEne ∈ E := List.getLast_mem hEne
      have hwhole : (date ++ ' ' :: ' ' :: (name ++ ' ' :: E)).getLast? =
          some (E.getLast hEne) :=
        getLast?_append_some (getLast?_cons_some _ (getLast?_cons_some _
          (getLast?_append_some (getLast?_cons_some _ hEl))))
      rw [hwhole] at hc
      simp only [Option.some.injEq] at hc
      subst hc
      exact hEws _ hEm
  by_cases heq : email = tpmAddr
  · simp only [normalizeTop, hfields, List.getElem?_cons_succ,
      List.getElem?_cons_zero, Option.some_bind, Option.bind_eq_bind,
      List.eraseIdx_cons_succ, List.eraseIdx_cons_zero, ht2, ht5,
      beq_self_eq_true, Option.pure_def, if_pos rfl]
    rcases hopm with hp | hp
    · simp only [hp, Bool.true_or, if_true, List.eraseIdx_cons_succ,
        List.eraseIdx_cons_zero, List.getElem?_cons_succ,
        List.getElem?_cons_zero, ht2, ht5, Option.some_bind,
        beq_self_eq_true, if_pos rfl]
      rw [hlast2, Option.some_bind, if_pos heq, hjoin2,
        hstrip timAddr (by decide) (by decide), heq, if_pos rfl]
    · simp only [hp, Bool.or_true, if_true, List.eraseIdx_cons_succ,
        List.eraseIdx_cons_zero, List.getElem?_cons_succ,
        List.getElem?_cons_zero, ht2, ht5, Option.some_bind,
        beq_self_eq_true, if_pos rfl]
      rw [hlast2, Option.some_bind, if_pos heq, hjoin2,
        hstrip timAddr (by decide) (by decide), heq, if_pos rfl]
  · simp only [normalizeTop, hfields, List.getElem?_cons_succ,
      List.getElem?_cons_zero, Option.some_bind, Option.bind_eq_bind,
      List.eraseIdx_cons_succ, List.eraseIdx_cons_zero, ht2, ht5,
      beq_self_eq_true, Option.pure_def, if_pos rfl]
    rcases hopm with hp | hp
    · simp only [hp, Bool.true_or, if_true, List.eraseIdx_cons_succ,
        List.eraseIdx_cons_zero, List.getElem?_cons_succ,
        List.getElem?_cons_zero, ht2, ht5, Option.some_bind,
        beq_self_eq_true, if_pos rfl]
      rw [hlast2, Option.some_bind, if_neg heq, hjoin,
        hstrip email hene hews, if_neg heq]
    · simp only [hp, Bool.or_true, if_true, List.eraseIdx_cons_succ,
        List.eraseIdx_cons_zero, List.getElem?_cons_succ,
        List.getElem?_cons_zero, ht2, ht5, Option.some_bind,
        beq_self_eq_true, if_pos rfl]
      rw [hlast2, Option.some_bind, if_neg heq, hjoin,
        hstrip email hene hews, if_neg heq]

/-- Witness for C2 at the concrete header
`2008-05-13 07:10:28 +0000  Alice <a@example.com>`. -/
theorem claim_C2_witness :
    normalizeTop (toLine "2008-05-13" ++ ' ' :: (toLine "07:10:28" ++ ' ' ::
        (toLine "+0000" ++ ' ' :: ' ' ::
          (toLine "Alice" ++ ' ' :: toLine "<a@example.com>")))) =
      some (toLine "2008-05-13" ++ ' ' :: ' ' :: (toLine "Alice" ++ ' ' ::
        (if toLine "<a@example.com>" = tpmAddr then timAddr
         else toLine "<a@example.com>"))) :=
  claim_C2 (toLine "2008-05-13") (toLine "07:10:28") (toLine "+0000")
    (toLine "Alice") (toLine "<a@example.com>")
    (by constructor <;> decide) (by refine ⟨?_, ?_, ?_⟩ <;> decide)
    (by constructor <;> decide) (by constructor <;> decide)

/-- C5 (amended): re-normalizing an already-normalized header fails.  A header
of the form `<date>␣␣<rest>` — a space-free date followed by two spaces, the
shape produced by a prior run — leaves an empty second field after splitting,
and indexing position 2 of that empty field raises an `IndexError`. -/
theorem claim_C5 (date rest : Line) (hds : ' ' ∉ date) :
    normalizeTop (date ++ ' ' :: ' ' :: rest) = none := by
  have hfields : pySplit ' ' (date ++ ' ' :: ' ' :: rest) =
      date :: [] :: pySplit ' ' rest := by
    rw [pySplit_append date _ hds, pySplit_cons_sep]
  cases hR : pySplit ' ' rest with
  | nil => exact absurd hR (pySplit_ne_nil _ _)
  | cons r R' =>
    rw [hR] at hfields
    by_cases hp : (List.isPrefixOf ['+'] r || List.isPrefixOf ['-'] r) = true
    · simp only [normalizeTop, hfields, List.getElem?_cons_succ,
        List.getElem?_cons_zero, Option.some_bind, Option.bind_eq_bind, hp,
        if_true, List.eraseIdx_cons_succ, List.eraseIdx_cons_zero,
        List.getElem?_nil, Option.none_bind]
    · simp only [normalizeTop, hfields, List.getElem?_cons_succ,
        List.getElem?_cons_zero, Option.some_bind, Option.bind_eq_bind,
        if_neg hp, List.getElem?_nil, Option.none_bind]

/-- Counterexample to C5 as stated: the header-normalization rule maps the
scenario header to `2008-05-13  Alice <a@example.com>`, but feeding that
output back through the rule does not return it unchanged (it raises an
`IndexError`), so the normalized form is not a fixed point. -/
theorem claim_C5_cex :
    normalizeTop (toLine "2008-05-13 07:10:28 +0000  Alice <a@example.com>") =
      some (toLine "2008-05-13  Alice <a@example.com>") ∧
    normalizeTop (toLine "2008-05-13  Alice <a@example.com>") ≠
      some (toLine "2008-05-13  Alice <a@example.com>") := by
  decide

/-- Witness for the amended C5 on the normalized scenario header. -/
theorem claim_C5_witness :
    normalizeTop (toLine "2008-05-13" ++ ' ' :: ' ' ::
      toLine "Alice <a@example.com>") = none :=
  claim_C5 (toLine "2008-05-13") (toLine "Alice <a@example.com>") (by decide)

theorem normalizeTop_eq_none_of_lt_three {t : Line}
    (h : (pySplit ' ' t).length < 3) : normalizeTop t = none := by
  have h2 : (pySplit ' ' t)[2]? = none := List.getElem?_eq_none (by omega)
  simp only [normalizeTop, h2, Option.bind_eq_bind, Option.none_bind]

/-- C10: `process_commit` is partial: whenever the cleaned buffer has fewer
than two lines, or its first line splits on single spaces into fewer than
three fields, the formatter fails with an indexing error and prints nothing
(`none` output). -/
theorem claim_C10 (lines0 files0 : List Line)
    (h : (cleanBuf lines0).length < 2 ∨
      (∃ t, (cleanBuf lines0)[0]? = some t ∧ (pySplit ' ' t).length < 3)) :
    process_commit lines0 files0 = none := by
  unfold process_commit
  rcases h with h1 | ⟨t, ht, hlen⟩
  · have h1' : (cleanBuf lines0)[1]? = none := List.getElem?_eq_none (by omega)
    cases h0 : (cleanBuf lines0)[0]? with
    | none => simp [stanzaSections, h0]
    | some t0 => simp [stanzaSections, h0, h1']
  · cases h1 : (cleanBuf lines0)[1]? with
    | none => simp [stanzaSections, ht, h1]
    | some l1 =>
      simp [stanzaSections, ht, h1, normalizeTop_eq_none_of_lt_three hlen]

/-- Witness for C10: a single-line buffer makes the formatter fail. -/
theorem claim_C10_witness :
    process_commit [toLine "2008-05-13 07:10:28 +0000  Alice <a@b.c>"] [] =
      none :=
  claim_C10 _ _ (Or.inl (by decide))

/-- Success-shape of `stanzaSections`: on a successful run the four print
groups are determined by the cleaned buffer, the cleaned file list, and the
normalized top line. -/
theorem stanzaSections_spec {lines0 files0 : List Line}
    {t : List Line × List Line × List Line × List Line}
    (h : stanzaSections lines0 files0 = some t) :
    ∃ top l1 ntop,
      (cleanBuf lines0)[0]? = some top ∧
      (cleanBuf lines0)[1]? = some l1 ∧
      normalizeTop top = some ntop ∧
      t.1 = [ntop, []] ∧
      t.2.1 = (if List.isPrefixOf ['*'] l1 then ([] : List Line)
               else ['\t' :: pyStrip l1]) ∧
      t.2.2.1 =
        (if (cleanBuf lines0).any (fun l => List.isPrefixOf ['*', ' '] l)
         then ([] : List Line)
         else (cleanFiles files0).map fmtFileLine ++ [[]]) ∧
      t.2.2.2 =
        (if firstBodyIdx (cleanBuf lines0) > 0 then
          (((cleanBuf lines0).drop (firstBodyIdx (cleanBuf lines0))).filter
              (fun l => !List.isPrefixOf signedOffBy l)).map
            (fun l => '\t' :: pyStrip l) ++ [[]]
         else []) := by
  cases h0 : (cleanBuf lines0)[0]? with
  | none => simp [stanzaSections, h0] at h
  | some top =>
    cases h1 : (cleanBuf lines0)[1]? with
    | none => simp [stanzaSections, h0, h1] at h
    | some l1 =>
      cases hn : normalizeTop top with
      | none => simp [stanzaSections, h0, h1, hn] at h
      | some ntop =>
        refine ⟨top, l1, ntop, rfl, rfl, hn, ?_⟩
        simp only [stanzaSections, h0, h1, hn, Option.some_bind,
          Option.bind_eq_bind, Option.pure_def, Option.some.injEq] at h
        rw [← h]
        refine ⟨rfl, ?_, rfl, rfl⟩
        by_cases hpre : List.isPrefixOf ['*'] l1 = true
        · simp [hpre]
        · simp [hpre]

/-- C3 (amended): when no cleaned buffer line starts with the bullet marker
`* `, the file-bullet print group is exactly one `\t* <path>:` line per
cleaned file entry, in order, followed by a blank line. -/
theorem claim_C3 (lines0 files0 : List Line)
    (t : List Line × List Line × List Line × List Line)
    (h : stanzaSections lines0 files0 = some t)
    (hnb : ∀ l ∈ cleanBuf lines0, List.isPrefixOf ['*', ' '] l = false) :
    t.2.2.1 = (cleanFiles files0).map fmtFileLine ++ [[]] := by
  obtain ⟨top, l1, ntop, h0, h1, hn, ht1, ht2, ht3, ht4⟩ := stanzaSections_spec h
  have hany : (cleanBuf lines0).any (fun l => List.isPrefixOf ['*', ' '] l) =
      false := by
    rw [List.any_eq_false]
    intro x hx
    rw [hnb x hx]
    exact Bool.false_ne_true
  rw [ht3, hany]
  simp

/-- Counterexample to C3 as stated: the first body line `Fix leak` does not
start with `* `, the file buffer is non-empty, yet no file-bullet section is
printed, because a LATER buffer line (`* foo.c: details`) starts with `* `. -/
theorem claim_C3_cex :
    ((stanzaSections
        [toLine "2008-05-13 07:10:28 +0000  Alice <a@b.c>",
         toLine "Fix leak", toLine "* foo.c: details"]
        [toLine "a.c"]).map fun t => t.2.2.1) = some [] ∧
    (cleanBuf
        [toLine "2008-05-13 07:10:28 +0000  Alice <a@b.c>",
         toLine "Fix leak", toLine "* foo.c: details"])[1]? =
      some (toLine "Fix leak") ∧
    List.isPrefixOf ['*', ' '] (toLine "Fix leak") = false ∧
    cleanFiles [toLine "a.c"] = [toLine "a.c"] := by
  decide

/-- Witness for the amended C3 on a concrete bullet-free commit. -/
theorem claim_C3_witness :
    (([toLine "2008-05-13  A <a@b.c>", toLine ""], [toLine "\tFix leak"],
        [toLine "\t* a.c:", toLine ""], ([] : List Line)) :
      List Line × List Line × List Line × List Line).2.2.1 =
      (cleanFiles [toLine "a.c"]).map fmtFileLine ++ [[]] :=
  claim_C3
    [toLine "2008-05-13 07:10:28 +0000  A <a@b.c>", toLine "Fix leak"]
    [toLine "a.c"] _ (by decide) (by decide)

/-- C4: when the first body line (second cleaned buffer line) starts with
`* `, no synthetic file-bullet group is printed even for a non-empty file
buffer, and the output does not depend on the file buffer at all. -/
theorem claim_C4 (lines0 files0 : List Line) (l1 : Line)
    (h1 : (cleanBuf lines0)[1]? = some l1)
    (hp : List.isPrefixOf ['*', ' '] l1 = true) :
    (∀ t, stanzaSections lines0 files0 = some t → t.2.2.1 = []) ∧
    process_commit lines0 files0 = process_commit lines0 [] := by
  have hmem : l1 ∈ cleanBuf lines0 := by
    have := List.getElem?_eq_some_iff.mp h1
    obtain ⟨hlt, hget⟩ := this
    exact hget ▸ List.getElem_mem hlt
  have hany : (cleanBuf lines0).any (fun l => List.isPrefixOf ['*', ' '] l) =
      true := List.any_eq_true.mpr ⟨l1, hmem, hp⟩
  constructor
  · intro t h
    obtain ⟨top, l1', ntop, h0, h1', hn, ht1, ht2, ht3, ht4⟩ :=
      stanzaSections_spec h
    rw [ht3, hany]
    simp
  · cases h0 : (cleanBuf lines0)[0]? with
    | none => simp [process_commit, stanzaSections, h0]
    | some top =>
      cases hn : normalizeTop top with
      | none => simp [process_commit, stanzaSections, h0, h1, hn]
      | some ntop =>
        simp [process_commit, stanzaSections, h0, h1, hn, hany, cleanFiles]

/-- Witness for C4 on a commit whose first body line is a `* ` bullet. -/
theorem claim_C4_witness :
    (∀ t, stanzaSections
        [toLine "2008-05-13 07:10:28 +0000  A <a@b.c>",
         toLine "* foo.c: fix"] [toLine "a.c"] = some t → t.2.2.1 = []) ∧
    process_commit
        [toLine "2008-05-13 07:10:28 +0000  A <a@b.c>",
         toLine "* foo.c: fix"] [toLine "a.c"] =
      process_commit
        [toLine "2008-05-13 07:10:28 +0000  A <a@b.c>",
         toLine "* foo.c: fix"] [] :=
  claim_C4 _ _ (toLine "* foo.c: fix") (by decide) (by decide)

/-- C6 (amended): the subject print group holds the tab-indented second
cleaned line exactly when that line does not start with an asterisk `*` (the
script tests the bare `*`, not the two-character bullet marker `* `); when it
starts with `*`, no subject line is printed. -/
theorem claim_C6 (lines0 files0 : List Line)
    (t : List Line × List Line × List Line × List Line)
    (h : stanzaSections lines0 files0 = some t)
    (l1 : Line) (h1 : (cleanBuf lines0)[1]? = some l1) :
    t.2.1 = (if List.isPrefixOf ['*'] l1 then ([] : List Line)
             else ['\t' :: pyStrip l1]) := by
  obtain ⟨top, l1', ntop, h0, h1', hn, ht1, ht2, ht3, ht4⟩ :=
    stanzaSections_spec h
  rw [h1] at h1'
  injection h1' with h1''
  rw [← h1''] at ht2
  exact ht2

/-- Counterexample to C6 as stated: the subject line `*note` does not start
with the bullet marker `* `, yet no subject line is printed, because the
script tests the single character `*`. -/
theorem claim_C6_cex :
    ((stanzaSections
        [toLine "2008-05-13 07:10:28 +0000  Alice <a@b.c>",
         toLine "*note", toLine "extra"] []).map fun t => t.2.1) = some [] ∧
    (cleanBuf
        [toLine "2008-05-13 07:10:28 +0000  Alice <a@b.c>",
         toLine "*note", toLine "extra"])[1]? = some (toLine "*note") ∧
    List.isPrefixOf ['*', ' '] (toLine "*note") = false := by
  decide

/-- Witness for the amended C6 on a plain subject line. -/
theorem claim_C6_witness :
    (([toLine "2008-05-13  A <a@b.c>", toLine ""], [toLine "\tFix leak"],
        [toLine ""], ([] : List Line)) :
      List Line × List Line × List Line × List Line).2.1 =
      (if List.isPrefixOf ['*'] (toLine "Fix leak") then ([] : List Line)
       else ['\t' :: pyStrip (toLine "Fix leak")]) :=
  claim_C6 [toLine "2008-05-13 07:10:28 +0000  A <a@b.c>", toLine "Fix leak"]
    [] _ (by decide) (toLine "Fix leak") (by decide)

theorem takeWhile_all {p : Char → Bool} {a : Line} (ha : a.all p = true) :
    a.takeWhile p = a := by
  induction a with
  | nil => rfl
  | cons c cs ih =>
    simp only [List.all_cons, Bool.and_eq_true] at ha
    simp [List.takeWhile_cons, ha.1, ih ha.2]

theorem takeWhile_append_stop {p : Char → Bool} {a : Line} (x : Char)
    (r : Line) (ha : a.all p = true) (hx : p x = false) :
    (a ++ x :: r).takeWhile p = a := by
  induction a with
  | nil => simp [List.takeWhile_cons, hx]
  | cons c cs ih =>
    simp only [List.all_cons, Bool.and_eq_true] at ha
    simp [List.takeWhile_cons, ha.1, ih ha.2]

theorem dropWhile_append_stop {p : Char → Bool} {a : Line} (x : Char)
    (r : Line) (ha : a.all p = true) (hx : p x = false) :
    (a ++ x :: r).dropWhile p = x :: r := by
  induction a with
  | nil => simp [List.dropWhile_cons, hx]
  | cons c cs ih =>
    simp only [List.all_cons, Bool.and_eq_true] at ha
    simp [List.dropWhile_cons, ha.1, ih ha.2]

theorem sepOk_not_digit {s : Char} (h : sepOk s = true) :
    s.isDigit = false := by
  simp only [sepOk, Bool.or_eq_true, decide_eq_true_eq] at h
  rcases h with (h | h) | h <;> rw [h] <;> decide

theorem isPrefixOf_append_self (l t : Line) :
    List.isPrefixOf l (l ++ t) = true := by
  induction l with
  | nil => simp
  | cons c l' ih => simp [List.isPrefixOf_cons₂, ih]

theorem parseVer_exact {a b c : Line} {s1 s2 : Char}
    (ha : a ≠ [] ∧ a.all Char.isDigit = true)
    (hb : b ≠ [] ∧ b.all Char.isDigit = true)
    (hc : c ≠ [] ∧ c.all Char.isDigit = true)
    (hs1 : sepOk s1 = true) (hs2 : sepOk s2 = true) :
    parseVer (a ++ s1 :: (b ++ s2 :: c)) = some (a, b, c) := by
  have hd1 := sepOk_not_digit hs1
  have hd2 := sepOk_not_digit hs2
  simp only [parseVer, takeDigits,
    takeWhile_append_stop s1 _ ha.2 hd1, dropWhile_append_stop s1 _ ha.2 hd1,
    List.isEmpty_eq_false.mpr ha.1, Bool.false_eq_true, if_false,
    takeWhile_append_stop s2 _ hb.2 hd2, dropWhile_append_stop s2 _ hb.2 hd2,
    List.isEmpty_eq_false.mpr hb.1, hs1, if_true,
    takeWhile_all hc.2, List.isEmpty_eq_false.mpr hc.1, hs2]

/-- A line built from a 40-character `[a-z0-9]` hash, the literal
`" refs/tags/GNET-"`, and three digit groups with `[-_.]` separators is
matched by the release-tag regex, yielding the hash and the groups. -/
theorem relTagMatch_exact {hash a b c : Line} {s1 s2 : Char}
    (hh40 : hash.length = 40) (hhc : hash.all isTagHashChar = true)
    (ha : a ≠ [] ∧ a.all Char.isDigit = true)
    (hb : b ≠ [] ∧ b.all Char.isDigit = true)
    (hc : c ≠ [] ∧ c.all Char.isDigit = true)
    (hs1 : sepOk s1 = true) (hs2 : sepOk s2 = true) :
    relTagMatch (hash ++ (relTagMid ++ (a ++ s1 :: (b ++ s2 :: c)))) =
      some (hash, (a, b, c)) := by
  have htake : (hash ++ (relTagMid ++ (a ++ s1 :: (b ++ s2 :: c)))).take 40 =
      hash := List.take_left' hh40
  have hdrop : (hash ++ (relTagMid ++ (a ++ s1 :: (b ++ s2 :: c)))).drop 40 =
      relTagMid ++ (a ++ s1 :: (b ++ s2 :: c)) := List.drop_left' hh40
  simp only [relTagMatch, htake, hdrop, hh40, hhc,
    isPrefixOf_append_self, Bool.and_self, Bool.and_true, Bool.true_and,
    decide_True, if_true, List.drop_left,
    parseVer_exact ha hb hc hs1 hs2, Option.map_some']

theorem foldl_relStep_unused (ls : List Line)
    (acc : Line → Option (Line × Line × Line)) (k : Line)
    (h : ∀ l ∈ ls, (relTagMatch l).map (fun p => p.1) ≠ some k) :
    ls.foldl relStep acc k = acc k := by
  induction ls generalizing acc with
  | nil => rfl
  | cons l ls ih =>
    rw [List.foldl_cons, ih _ (fun x hx => h x (List.mem_cons_of_mem _ hx))]
    cases hm : relTagMatch l with
    | none => simp [relStep, hm]
    | some st =>
      obtain ⟨sha, trip⟩ := st
      have hne : k ≠ sha := by
        intro hkeq
        apply h l (List.mem_cons_self _ _)
        rw [hm, hkeq]
        rfl
      simp [relStep, hm, if_neg hne]

/-- C8: for every `show-ref` line of the form
`<40-char [a-z0-9] hash> refs/tags/GNET-MAJOR<sep>MINOR<sep>PATCH` with
separators from `[-_.]`, the release mapping built by `get_rel_tags` sends
that hash to the exact (major, minor, patch) string triple, provided no later
line matches with the same hash (a later matching line wins); non-matching
lines are skipped and affect nothing. -/
theorem claim_C8 (ls1 ls2 : List Line) (hash a b c : Line) (s1 s2 : Char)
    (hh40 : hash.length = 40) (hhc : hash.all isTagHashChar = true)
    (ha : a ≠ [] ∧ a.all Char.isDigit = true)
    (hb : b ≠ [] ∧ b.all Char.isDigit = true)
    (hc : c ≠ [] ∧ c.all Char.isDigit = true)
    (hs1 : sepOk s1 = true) (hs2 : sepOk s2 = true)
    (hlater : ∀ l ∈ ls2, (relTagMatch l).map (fun p => p.1) ≠ some hash) :
    get_rel_tags
        (ls1 ++ (hash ++ relTagMid ++ (a ++ s1 :: (b ++ s2 :: c))) :: ls2)
        hash = some (a, b, c) := by
  have hmatch := relTagMatch_exact hh40 hhc ha hb hc hs1 hs2
  rw [List.append_assoc]
  unfold get_rel_tags
  rw [List.foldl_append, List.foldl_cons, foldl_relStep_unused ls2 _ hash hlater]
  simp [relStep, hmatch]

/-- Witness for C8: a release tag `GNET-1.2.3` on a concrete hash, followed
by a non-matching line. -/
theorem claim_C8_witness :
    get_rel_tags
        ([toLine "not a tag line"] ++
          (toLine "aaaaaaaaaaaaaaaaaaaaaaaaaaaaaaaaaaaaaaaa" ++ relTagMid ++
            (toLine "1" ++ '-' :: (toLine "2" ++ '.' :: toLine "3"))) ::
          [toLine "bbbb refs/tags/GNET-9.9.9"])
        (toLine "aaaaaaaaaaaaaaaaaaaaaaaaaaaaaaaaaaaaaaaa") =
      some (toLine "1", toLine "2", toLine "3") :=
  claim_C8 [toLine "not a tag line"] [toLine "bbbb refs/tags/GNET-9.9.9"]
    (toLine "aaaaaaaaaaaaaaaaaaaaaaaaaaaaaaaaaaaaaaaa")
    (toLine "1") (toLine "2") (toLine "3") '-' '.'
    (by decide) (by decide) (by constructor <;> decide)
    (by constructor <;> decide) (by constructor <;> decide)
    (by decide) (by decide) (by decide)

/-- C9: when the start-tag lookup resolves, the log command's argument list
is the fixed head plus the single revision range `<start-tag>..HEAD`, all
caller-supplied arguments discarded; when it does not resolve, the
caller-supplied arguments are appended verbatim, in order. -/
theorem claim_C9 (tagLines argv : List Line) :
    (∀ t, find_start_tag tagLines = some t →
      build_cmd tagLines argv = baseLogCmd ++ [t ++ toLine "..HEAD"]) ∧
    (find_start_tag tagLines = none →
      build_cmd tagLines argv = baseLogCmd ++ argv) := by
  constructor
  · intro t ht
    simp [build_cmd, ht]
  · intro ht
    simp [build_cmd, ht]

/-- Witness for C9: a resolved `CHANGELOG_START` tag replaces the
caller-supplied argument. -/
theorem claim_C9_witness :
    build_cmd
        [toLine
          "aaaaaaaaaaaaaaaaaaaaaaaaaaaaaaaaaaaaaaaa refs/tags/CHANGELOG_START"]
        [toLine "--all"] =
      baseLogCmd ++
        [toLine "aaaaaaaaaaaaaaaaaaaaaaaaaaaaaaaaaaaaaaaa" ++
          toLine "..HEAD"] :=
  (claim_C9
      [toLine
        "aaaaaaaaaaaaaaaaaaaaaaaaaaaaaaaaaaaaaaaa refs/tags/CHANGELOG_START"]
      [toLine "--all"]).1
    (toLine "aaaaaaaaaaaaaaaaaaaaaaaaaaaaaaaaaaaaaaaa") (by decide)

theorem runLoop_buf_accum (rel : Line → Option (Line × Line × Line))
    (body : List Line) (buf files rest : List Line)
    (hb : ∀ l ∈ body, List.isPrefixOf startSentinel l = false ∧
      List.isPrefixOf endSentinel l = false) :
    runLoop rel buf files false (body ++ rest) =
      runLoop rel (buf ++ body) files false rest := by
  induction body generalizing buf with
  | nil => simp
  | cons l body ih =>
    obtain ⟨hs, he⟩ := hb l (List.mem_cons_self _ _)
    rw [List.cons_append]
    simp only [runLoop, hs, he, Bool.false_eq_true, if_false]
    rw [ih (buf ++ [l]) (fun x hx => hb x (List.mem_cons_of_mem _ hx))]
    simp

theorem runLoop_files_accum (rel : Line → Option (Line × Line × Line))
    (fls : List Line) (buf files rest : List Line)
    (hf : ∀ l ∈ fls, List.isPrefixOf startSentinel l = false ∧
      List.isPrefixOf endSentinel l = false) :
    runLoop rel buf files true (fls ++ rest) =
      runLoop rel buf (files ++ fls) true rest := by
  induction fls generalizing files with
  | nil => simp
  | cons l fls ih =>
    obtain ⟨hs, he⟩ := hf l (List.mem_cons_self _ _)
    rw [List.cons_append]
    simp only [runLoop, hs, he, Bool.false_eq_true, if_false, if_true]
    rw [ih (files ++ [l]) (fun x hx => hf x (List.mem_cons_of_mem _ hx))]
    simp

/-- C7: a release-boundary marker (`=== release X.Y.Z ===` plus a blank line)
is printed immediately before a commit's stanza exactly when the commit's
hash is a key of the release mapping: on a single commit block — start
sentinel carrying the hash, body lines, end sentinel, file lines — the output
is the marker for the hash (empty on a lookup miss) followed by the stanza
`process_commit` prints for the body and files. -/
theorem claim_C7 (rel : Line → Option (Line × Line × Line)) (h : Line)
    (body fls : List Line) (endLine : Line)
    (hwf : ∀ k x y z, rel k = some (x, y, z) →
      x ≠ [] ∧ x.all Char.isDigit = true ∧ y ≠ [] ∧
        y.all Char.isDigit = true ∧ z ≠ [] ∧ z.all Char.isDigit = true)
    (hb : ∀ l ∈ body, List.isPrefixOf startSentinel l = false ∧
      List.isPrefixOf endSentinel l = false)
    (hf : ∀ l ∈ fls, List.isPrefixOf startSentinel l = false ∧
      List.isPrefixOf endSentinel l = false)
    (he : List.isPrefixOf startSentinel endLine = false ∧
      List.isPrefixOf endSentinel endLine = true)
    (hbn : body ≠ []) :
    output_commits rel ((startSentinel ++ h) :: (body ++ endLine :: fls)) =
        exAppend (relMarker rel (pyStrip h)) (pcFlush body fls) ∧
      (relMarker rel (pyStrip h) = [] ↔ rel (pyStrip h) = none) := by
  constructor
  · have hstart : List.isPrefixOf startSentinel (startSentinel ++ h) = true :=
      isPrefixOf_append_self _ _
    have hdrop : (startSentinel ++ h).drop 16 = h :=
      List.drop_left' (by decide)
    simp only [output_commits, runLoop, hstart, if_true, if_pos rfl, hdrop]
    rw [runLoop_buf_accum rel body [] [] _ hb]
    simp only [List.nil_append]
    simp only [runLoop, he.1, he.2, Bool.false_eq_true, if_false, if_true]
    have hfin := runLoop_files_accum rel fls body [] [] hf
    rw [List.append_nil, List.nil_append] at hfin
    rw [hfin]
    simp only [runLoop, if_neg hbn]
  · cases hr : rel (pyStrip h) with
    | none => simp [relMarker, hr]
    | some t =>
      obtain ⟨x, y, z⟩ := t
      obtain ⟨hx1, hx2, hy1, hy2, hz1, hz2⟩ := hwf _ _ _ _ hr
      simp [relMarker, hr, pyInt, hx1, hx2, hy1, hy2, hz1, hz2]

/-- Witness for C7: a one-commit stream whose hash resolves to release
`(1, 2, 3)`. -/
theorem claim_C7_witness :
    output_commits
        (fun k => if k = toLine "abc123" then
          some (toLine "1", toLine "2", toLine "3") else none)
        ((startSentinel ++ toLine "abc123") ::
          ([toLine "2008-05-13 07:10:28 +0000  A <a@b.c>", toLine "Fix leak"]
            ++ endSentinel :: [toLine "src/foo.c"])) =
      exAppend
        (relMarker
          (fun k => if k = toLine "abc123" then
            some (toLine "1", toLine "2", toLine "3") else none)
          (pyStrip (toLine "abc123")))
        (pcFlush
          [toLine "2008-05-13 07:10:28 +0000  A <a@b.c>", toLine "Fix leak"]
          [toLine "src/foo.c"]) :=
  (claim_C7
      (fun k => if k = toLine "abc123" then
        some (toLine "1", toLine "2", toLine "3") else none)
      (toLine "abc123")
      [toLine "2008-05-13 07:10:28 +0000  A <a@b.c>", toLine "Fix leak"]
      [toLine "src/foo.c"] endSentinel
      (fun k x y z hk => by
        simp only at hk
        split at hk
        · simp only [Option.some.injEq, Prod.mk.injEq] at hk
          obtain ⟨h1, h2, h3⟩ := hk
          subst h1
          subst h2
          subst h3
          exact ⟨by decide, by decide, by decide, by decide, by decide,
            by decide⟩
        · cases hk)
      (by decide) (by decide) (by decide) (by decide)).1

end GenChangelog
